import Mathlib

/-!
Shallow embedding of `pyglimmpse/NonCentralityDistribution.py` over exact
rationals.  Matrices are modelled as row-major lists of lists of `ℚ` with
explicit row/column counts, mirroring the `numpy.matrix` objects the source
manipulates; fallible numpy operations (`np.linalg.inv`) are modelled as
`Except`, and the outputs of the numerical collaborators whose values the
source does not determine (Cholesky factors, eigendecompositions, the
noncentral-F primitive `probf`, the Davies weighted-chi-square solver) are
passed in as explicit arguments, constrained by decidable validity
predicates where a theorem needs them to be genuine.

Rational arithmetic is performed through `mkRat`-based wrappers (`qadd`,
`qmul`, ...) that the kernel can evaluate; they are proved equal to the
standard field operations below, so theorems can be stated and reasoned
about with ordinary arithmetic while concrete runs are settled by `decide`.
-/

namespace PyGlimmpse

/-- Kernel-computable addition on `ℚ` (equal to `a + b`, see `qadd_eq`). -/
def qadd (a b : ℚ) : ℚ := mkRat (a.num * b.den + b.num * a.den) (a.den * b.den)

/-- Kernel-computable negation on `ℚ` (equal to `-a`, see `qneg_eq`). -/
def qneg (a : ℚ) : ℚ := mkRat (-a.num) a.den

/-- Kernel-computable subtraction on `ℚ` (equal to `a - b`, see `qsub_eq`). -/
def qsub (a b : ℚ) : ℚ := qadd a (qneg b)

/-- Kernel-computable multiplication on `ℚ` (equal to `a * b`, see `qmul_eq`). -/
def qmul (a b : ℚ) : ℚ := mkRat (a.num * b.num) (a.den * b.den)

/-- Kernel-computable inverse on `ℚ`, with `qinv 0 = 0` as in `ℚ` itself. -/
def qinv (a : ℚ) : ℚ :=
  if a.num = 0 then 0 else mkRat (Int.sign a.num * a.den) a.num.natAbs

/-- Kernel-computable division on `ℚ` (equal to `a / b`, see `qdiv_eq`). -/
def qdiv (a b : ℚ) : ℚ := qmul a (qinv b)

/-- Kernel-computable embedding of `ℕ` into `ℚ`. -/
def qofNat (n : ℕ) : ℚ := mkRat n 1

/-- Kernel-computable absolute value on `ℚ` (equal to `|a|`, see `qabs_eq`). -/
def qabs (a : ℚ) : ℚ := if a.num < 0 then qneg a else a

/-- Kernel-computable `(-1)^n` on `ℚ`. -/
def qsign (n : ℕ) : ℚ := if n % 2 = 0 then 1 else -1

/-- Kernel-computable sum of a list of rationals (equal to `List.sum`). -/
def qsum : List ℚ → ℚ
  | [] => 0
  | x :: xs => qadd x (qsum xs)

/-- A dense rational matrix in row-major layout with explicit shape, the
counterpart of a `numpy.matrix` of floats. -/
structure Mat where
  rows : ℕ
  cols : ℕ
  data : List (List ℚ)
deriving DecidableEq

/-- Entry read, defaulting to `0` outside the stored data, the counterpart of
`m[i, j]`. -/
def Mat.get (m : Mat) (i j : ℕ) : ℚ :=
  (m.data.getD i []).getD j 0

/-- Build a matrix from a shape and an entry function. -/
def buildMat (r c : ℕ) (f : ℕ → ℕ → ℚ) : Mat :=
  ⟨r, c, (List.range r).map fun i => (List.range c).map fun j => f i j⟩

/-- Matrix transpose, the counterpart of `m.T`. -/
def transpose (m : Mat) : Mat :=
  buildMat m.cols m.rows fun i j => m.get j i

/-- Matrix product, the counterpart of `*` on `numpy.matrix`. -/
def matMul (a b : Mat) : Mat :=
  buildMat a.rows b.cols fun i j =>
    qsum ((List.range a.cols).map fun k => qmul (a.get i k) (b.get k j))

/-- Scalar multiple of a matrix, the counterpart of `m * c` for scalar `c`. -/
def smul (c : ℚ) (m : Mat) : Mat :=
  buildMat m.rows m.cols fun i j => qmul c (m.get i j)

/-- Entrywise sum, the counterpart of `+` on `numpy` arrays. -/
def matAdd (a b : Mat) : Mat :=
  buildMat a.rows a.cols fun i j => qadd (a.get i j) (b.get i j)

/-- Entrywise difference of two matrices. -/
def matSub (a b : Mat) : Mat :=
  buildMat a.rows a.cols fun i j => qsub (a.get i j) (b.get i j)

/-- Identity matrix, the counterpart of `np.identity(n)`. -/
def identity (n : ℕ) : Mat :=
  buildMat n n fun i j => if i = j then 1 else 0

/-- All-zero matrix. -/
def zeroMat (r c : ℕ) : Mat := buildMat r c fun _ _ => 0

/-- Lower triangle including the diagonal, the counterpart of `np.tril(m)`. -/
def tril (m : Mat) : Mat :=
  buildMat m.rows m.cols fun i j => if j ≤ i then m.get i j else 0

/-- Strictly-upper triangle, the counterpart of `np.triu(m, 1)`. -/
def triu1 (m : Mat) : Mat :=
  buildMat m.rows m.cols fun i j => if i + 1 ≤ j then m.get i j else 0

/-- Sum of the diagonal, the counterpart of `np.trace`. -/
def trace (m : Mat) : ℚ :=
  qsum ((List.range m.rows).map fun i => m.get i i)

/-- Column reversal, the counterpart of `np.flip(m, 1)`. -/
def flipCols (m : Mat) : Mat :=
  buildMat m.rows m.cols fun i j => m.get i (m.cols - 1 - j)

/-- Entrywise square; `initialize` squares the `mzSq` matrix in place with
exactly this effect (its double loop over `entry * entry`). -/
def squareEntries (m : Mat) : Mat :=
  buildMat m.rows m.cols fun i j => qmul (m.get i j) (m.get i j)

/-- Column `k` of a matrix, as a column vector. -/
def colOf (m : Mat) (k : ℕ) : Mat :=
  buildMat m.rows 1 fun i _ => m.get i k

/-- Laplace expansion along the first row, with structural fuel. -/
def detAux : ℕ → Mat → ℚ
  | 0, _ => 1
  | n + 1, m =>
      qsum ((List.range (n + 1)).map fun j =>
        qmul (qmul (qsign j) (m.get 0 j))
          (detAux n (buildMat n n fun i' j' =>
            m.get (i' + 1) (if j' < j then j' else j' + 1))))

/-- Determinant of a square matrix, the exact-arithmetic idealisation of the
floating-point LU factorisation inside `np.linalg`. -/
def det (m : Mat) : ℚ := detAux m.rows m

/-- Minor obtained by deleting row `r` and column `c`. -/
def minorAt (m : Mat) (r c : ℕ) : Mat :=
  buildMat (m.rows - 1) (m.cols - 1) fun i j =>
    m.get (if i < r then i else i + 1) (if j < c then j else j + 1)

/-- Matrix inverse, the counterpart of `np.linalg.inv`: it fails on non-square
input and raises `LinAlgError` on an exactly singular matrix. -/
def npInv (m : Mat) : Except String Mat :=
  if m.rows ≠ m.cols then .error "Last 2 dimensions of the array must be square"
  else if det m = 0 then .error "Singular matrix"
  else .ok (buildMat m.rows m.cols fun i j =>
    qdiv (qmul (qsign (i + j)) (det (minorAt m j i))) (det m))

/-- Bounded extensional equality of matrices as a decidable check. -/
def matEqB (a b : Mat) : Bool :=
  decide (a.rows = b.rows) && decide (a.cols = b.cols) &&
    ((List.range a.rows).all fun i =>
      (List.range a.cols).all fun j => decide (a.get i j = b.get i j))

/-- Decidable check that a matrix is lower triangular. -/
def lowerTriB (m : Mat) : Bool :=
  (List.range m.rows).all fun i =>
    (List.range m.cols).all fun j => decide (j ≤ i) || decide (m.get i j = 0)

/-- Decidable check that every diagonal entry is strictly positive. -/
def posDiagB (m : Mat) : Bool :=
  (List.range m.rows).all fun i => decide (0 < m.get i i)

/-- Decidable check that `L` is the Cholesky factor of `A`: lower triangular
with strictly positive diagonal and `L * Lᵀ = A`.  Such a factor is unique,
so a matrix passing this check is the matrix `np.linalg.cholesky` returns. -/
def isCholOfB (L A : Mat) : Bool :=
  decide (L.rows = A.rows) && decide (L.cols = A.rows) &&
    lowerTriB L && posDiagB L && matEqB (matMul L (transpose L)) A

/-- Decidable check that `vals` is a plausible eigenvalue list for `m`:
right length, and every listed value is a root of the characteristic
polynomial.  Every genuine `np.linalg.eigvals` output satisfies it. -/
def isEigListOfB (vals : List ℚ) (m : Mat) : Bool :=
  decide (vals.length = m.rows) &&
    vals.all fun v => decide (det (matSub m (smul v (identity m.rows))) = 0)

/-- Decidable check that `(vals, vecs)` is a genuine eigendecomposition of
`S`: for each `k`, column `k` of `vecs` is a nonzero eigenvector of `S` with
eigenvalue `vals[k]`.  Every genuine `np.linalg.eig` output satisfies it. -/
def isEigPairsOfB (vals : List ℚ) (vecs S : Mat) : Bool :=
  decide (vals.length = S.rows) && decide (vecs.rows = S.rows) &&
    decide (vecs.cols = S.rows) &&
    ((List.range vals.length).all fun k =>
      matEqB (matMul S (colOf vecs k)) (smul (vals.getD k 0) (colOf vecs k)) &&
        !(matEqB (colOf vecs k) (zeroMat S.rows 1)))

/-- The statistical test tag passed to the engine (`Constants.HLT` or one of
the UNIREP family members). -/
inductive TestTag where
  | HLT
  | UNIREP
  | UNIREP_BOX
  | UNIREP_GG
  | UNIREP_HF
deriving DecidableEq

/-- Modelled from the spec: `Constants.HLT` is the Hotelling-Lawley-Trace
member of the test-type enum (the `constants` module is not part of the
sources here); its `.value` is the non-empty name string of the test, and a
non-empty Python string is truthy.  The source line
`if test == Constants.HLT or Constants.HLT.value:` therefore tests
`(test == Constants.HLT) or truthy(Constants.HLT.value)`. -/
def hltValueTruthy : Bool := true

/-- Modelled from the spec: the not-positive-definite error constant
`Constants.ERR_NOT_POSITIVE_DEFINITE` appended to the error list (the
`constants` module is not part of the sources here). -/
def errNotPositiveDefinite : String := "ERR_NOT_POSITIVE_DEFINITE"

/-- Modelled from the spec: one (weight, degrees-of-freedom, noncentrality)
term of the weighted chi-square decomposition (`chisquareterm.py` is not part
of the sources here; the spec describes the triple). -/
structure ChiSquareTerm where
  lam : ℚ
  nu : ℚ
  delta : ℚ
deriving DecidableEq

/-- The value returned by the Python `cdf` method.  The method does not
always return a float: two of its branches return other objects, which the
embedding keeps apart by constructor. -/
inductive CdfResult where
  /-- a plain float, from the boundary, special-case-2 and exact branches -/
  | num (x : ℚ)
  /-- the `(prob, fmethod)` tuple returned ununpacked by `return probf(...)` -/
  | pair (p : ℚ) (method : ℕ)
  /-- the frozen `scipy.stats` distribution object `f(x, df1, df2)` returned
  by the Satterthwaite branch (`f` is the distribution class, not its cdf) -/
  | frozen (x df1 df2 : ℚ)
deriving DecidableEq

/-- True exactly on the numeric constructor of `CdfResult`. -/
def isNum : CdfResult → Bool
  | .num _ => true
  | _ => false

/-- The state stored on a `NonCentralityDistribution` object after
`initialize` returns: exactly the attributes `initialize` assigns.  The
constructor arguments (`test`, `FEssence`, ...) are never saved on `self`;
`testAttr` records the (absent) `self.test` attribute that the two mutators
try to read. -/
structure Engine where
  T1 : Mat
  FT1 : Mat
  S : Mat
  mzSq : Mat
  H1 : ℚ
  H0 : ℚ
  qF : ℕ
  a : ℚ
  N : ℚ
  sEigenValues : List ℚ
  sStar : ℕ
  exact : Bool
  errors : List String
  testAttr : Option TestTag
deriving DecidableEq

/-- Dummy engine used only as the default of `exGetD`. -/
def defaultEngine : Engine :=
  ⟨zeroMat 0 0, zeroMat 0 0, zeroMat 0 0, zeroMat 0 0, 0, 0, 0, 0, 0, [], 0,
    false, [], none⟩

/-- Decidable equality for `Except` values, used to settle concrete runs. -/
instance exceptDecEq {ε α : Type} [DecidableEq ε] [DecidableEq α] :
    DecidableEq (Except ε α) := fun x y =>
  match x, y with
  | .ok a, .ok b =>
    if h : a = b then .isTrue (by rw [h]) else .isFalse (by simp [h])
  | .error a, .error b =>
    if h : a = b then .isTrue (by rw [h]) else .isFalse (by simp [h])
  | .ok _, .error _ => .isFalse (by simp)
  | .error _, .ok _ => .isFalse (by simp)

/-- True exactly on the `ok` constructor. -/
def exOk {α : Type} : Except String α → Bool
  | .ok _ => true
  | .error _ => false

/-- Value of an `ok`, or a default on `error`. -/
def exGetD {α : Type} (d : α) : Except String α → α
  | .ok a => a
  | .error _ => d

/-- Symmetry enforcement, the translation of `forceSymmetric`:
`np.tril(m) + np.triu(m.T, 1)`. -/
def forceSymmetric (m : Mat) : Mat :=
  matAdd (tril m) (triu1 (transpose m))

/-- Translation of `isPositiveDefinite`: raises on a non-square matrix, and
otherwise reports whether every eigenvalue is strictly positive.  The
eigenvalues computed by `np.linalg.eigvals(m)` are passed in as `eigvals`. -/
def isPositiveDefinite (m : Mat) (eigvals : List ℚ) : Except String Bool :=
  if m.rows ≠ m.cols then .error "Matrix must be non-null, square"
  else .ok (eigvals.all fun v => decide (0 < v))

/-- Translation of `getSigmaStarInverse`.  Note the source condition
`if test == Constants.HLT or Constants.HLT.value:` — by Python operator
precedence this is `(test == HLT) or truthy(HLT.value)`, kept verbatim here.
Returns the chosen inverse together with the updated error list. -/
def getSigmaStarInverse (errors : List String) (sigma_star : Mat)
    (test : TestTag) (sigmaEig : List ℚ) : Except String (Mat × List String) :=
  match isPositiveDefinite sigma_star sigmaEig with
  | .error e => .error e
  | .ok pd =>
    let errors2 := if pd then errors else errors ++ [errNotPositiveDefinite]
    if (test == TestTag.HLT) || hltValueTruthy then
      match npInv sigma_star with
      | .error e => .error e
      | .ok inv => .ok (inv, errors2)
    else
      let b := sigma_star.cols
      let sigmaStarTrace := trace sigma_star
      let sigmaStarSquaredTrace := trace (matMul sigma_star sigma_star)
      let epsilon := qdiv (qmul sigmaStarTrace sigmaStarTrace)
        (qmul (qofNat b) sigmaStarSquaredTrace)
      .ok (smul (qdiv (qmul (qofNat b) epsilon) sigmaStarTrace) (identity b),
        errors2)

/-- The UNIREP-family inverse form asserted by the specification, written
from the spec text: `b * epsilon / trace(sigma_star) * I` with
`epsilon = trace(sigma_star)^2 / (b * trace(sigma_star^2))` and `b` the
dimension of `sigma_star`. -/
def specUnirepSigmaStarInverse (sigma_star : Mat) : Mat :=
  let b := sigma_star.cols
  let t := trace sigma_star
  let t2 := trace (matMul sigma_star sigma_star)
  smul (qdiv (qmul (qofNat b) (qdiv (qmul t t) (qmul (qofNat b) t2))) t)
    (identity b)

/-- Gram matrix of the essence design, `FEssence.T * FEssence`. -/
def ftfOf (FEssence : Mat) : Mat := matMul (transpose FEssence) FEssence

/-- The `PPt` intermediate: `Cfixed * FtFinverse * (1/perGroupN) * Cfixed.T`. -/
def pptOf (FEssence Cfixed : Mat) (perGroupN : ℚ) : Mat :=
  matMul (smul (qdiv 1 perGroupN)
    (matMul Cfixed (exGetD (zeroMat 0 0) (npInv (ftfOf FEssence)))))
    (transpose Cfixed)

/-- The `T1` intermediate: `forceSymmetric(inv(PPt))`. -/
def t1Of (FEssence Cfixed : Mat) (perGroupN : ℚ) : Mat :=
  forceSymmetric (exGetD (zeroMat 0 0) (npInv (pptOf FEssence Cfixed perGroupN)))

/-- Translation of `initialize` (and hence of the constructor).  Beyond the
model inputs it takes the outputs of the numerical collaborators the source
calls: `sigmaEig` for `np.linalg.eigvals(sigma_star)` inside the
positive-definiteness check, `FT1` for `np.linalg.cholesky(T1)`, and
`(sEigOut, svecsOut)` for `np.linalg.eig(S)` (whose output order numpy does
not specify).  Failures of `np.linalg.inv` and the explicit square check
propagate out of the constructor as `Except.error`, after which no object
exists; on success the returned `Engine` holds exactly the attributes
`initialize` assigned, including the accumulated error list. -/
def initializeModel (test : TestTag) (FEssence : Mat) (perGroupN : ℚ)
    (Cfixed CGaussian thetaDiff sigmaStar : Mat) (stddevG : ℚ) (ex : Bool)
    (sigmaEig : List ℚ) (FT1 : Mat) (sEigOut : List ℚ) (svecsOut : Mat) :
    Except String Engine :=
  let N := qmul (qofNat FEssence.rows) perGroupN
  let qF := FEssence.cols
  match npInv (ftfOf FEssence) with
  | .error e => .error e
  | .ok _ =>
    match npInv (pptOf FEssence Cfixed perGroupN) with
    | .error e => .error e
    | .ok _ =>
      let T1 := t1Of FEssence Cfixed perGroupN
      match getSigmaStarInverse [] sigmaStar test sigmaEig with
      | .error e => .error e
      | .ok (sigmaStarInverse, errors) =>
        let H1matrix := matMul (matMul (matMul (transpose thetaDiff) T1)
          thetaDiff) sigmaStarInverse
        let H1 := trace H1matrix
        let S := smul (qdiv 1 H1) (matMul (matMul (matMul (matMul
          (transpose FT1) thetaDiff) sigmaStarInverse) (transpose thetaDiff))
          FT1)
        let sEigenValues := sEigOut.reverse
        let svec := transpose (flipCols svecsOut)
        let H0a := match sEigenValues with
          | [] => 0
          | v :: _ => qmul H1 (qsub 1 v)
        let H0 := if H0a ≤ 0 then 0 else H0a
        let sStar := sEigenValues.countP fun v => decide (0 < v)
        let mzSq := squareEntries (smul (qdiv 1 stddevG)
          (matMul (matMul svec (transpose FT1)) CGaussian))
        .ok ⟨T1, FT1, S, mzSq, H1, H0, qF, 0, N, sEigenValues, sStar, ex,
          errors, none⟩

/-- Python attribute read of `self.test`.  `initialize` never assigns
`self.test` and the class declares no such attribute, so on every engine it
produces an `AttributeError`. -/
def pyGetAttrTest (e : Engine) : Except String TestTag :=
  match e.testAttr with
  | some t => .ok t
  | none =>
    .error "AttributeError: NonCentralityDistribution object has no attribute test"

/-- Translation of `setPerGroupSampleSize`.  The source line is
`self.initialize(self.test, self.FEssence, self.FtFinverse, perGroupN,
self.CFixed, self.CRand, self.U, self.thetaNull, self.beta, self.sigmaError,
self.sigmaG, self.exact)`: Python evaluates the attribute reads before the
call, and the very first one, `self.test`, does not exist (were it to exist,
the call itself passes 12 positional arguments to the 9-parameter
`initialize` and would raise a `TypeError`). -/
def setPerGroupSampleSize (e : Engine) (perGroupN : ℚ) : Except String Engine :=
  match pyGetAttrTest e with
  | .error msg => .error msg
  | .ok _ =>
    .error "TypeError: initialize takes 10 positional arguments but 13 were given"

/-- Translation of `setBeta`, which fails exactly as `setPerGroupSampleSize`
does: its first attribute read is also the never-assigned `self.test`. -/
def setBeta (e : Engine) (beta : ℚ) : Except String Engine :=
  match pyGetAttrTest e with
  | .error msg => .error msg
  | .ok _ =>
    .error "TypeError: initialize takes 10 positional arguments but 13 were given"

/-- Accumulator state of the term-construction loop in `cdf`. -/
structure TermAcc where
  terms : List ChiSquareTerm
  m1Pos : ℚ
  m2Pos : ℚ
  m1Neg : ℚ
  m2Neg : ℚ
  numPos : ℕ
  numNeg : ℕ
  lastPos : ℚ
  lastNeg : ℚ
deriving DecidableEq

/-- Process one weighted chi-square term exactly as the accumulation block of
`cdf` does: append it, then update the positive or negative moments and the
last-seen noncentrality; a zero-weight term is recorded but not counted. -/
def accumTerm (acc : TermAcc) (lam nu delta : ℚ) : TermAcc :=
  let acc1 : TermAcc := { acc with terms := acc.terms ++ [⟨lam, nu, delta⟩] }
  if 0 < lam then
    { acc1 with
      numPos := acc1.numPos + 1
      lastPos := delta
      m1Pos := qadd acc1.m1Pos (qmul lam (qadd nu delta))
      m2Pos := qadd acc1.m2Pos
        (qmul (qmul (qmul lam lam) 2) (qadd nu (qmul 2 delta))) }
  else if lam < 0 then
    { acc1 with
      numNeg := acc1.numNeg + 1
      lastNeg := delta
      m1Neg := qadd acc1.m1Neg (qmul (qmul (-1) lam) (qadd nu delta))
      m2Neg := qadd acc1.m2Neg
        (qmul (qmul (qmul lam lam) 2) (qadd nu (qmul 2 delta))) }
  else acc1

/-- The whole term-construction loop of `cdf` at evaluation point `w`: the
central base term with weight `b0 = 1 - w/H1` and `N - qF` degrees of
freedom, then for `k < sStar` the 1-df term with weight `b0 - sEigenValues[k]`
and noncentrality `mzSq[k, 0]` (the `else` arm of the source loop is
unreachable because the loop bound equals `sStar`). -/
def accumTerms (e : Engine) (w : ℚ) : TermAcc :=
  let b0 := qsub 1 (qdiv w e.H1)
  let acc0 := accumTerm ⟨[], 0, 0, 0, 0, 0, 0, 0, 0⟩ b0
    (qsub e.N (qofNat e.qF)) 0
  (List.range e.sStar).foldl
    (fun acc k =>
      accumTerm acc (qsub b0 (e.sEigenValues.getD k 0)) 1 (e.mzSq.get k 0))
    acc0

/-- The fall-through tail of `cdf`: the exact branch hands the term list to
the Davies solver evaluated at 0, and the Satterthwaite branch builds the
moment-matched quantities and returns `f(x, nuStarPositive, nuStarNegative)`
— the frozen distribution object itself, since the source calls the
`scipy.stats.f` class and not its `cdf`. -/
def cdfTail (dv : List ChiSquareTerm → ℚ → ℚ) (ex : Bool) (A : TermAcc) :
    CdfResult :=
  if ex then .num (dv A.terms 0)
  else
    let nuStarPos := qdiv (qmul 2 (qmul A.m1Pos A.m1Pos)) A.m2Pos
    let nuStarNeg := qdiv (qmul 2 (qmul A.m1Neg A.m1Neg)) A.m2Neg
    let lamStarPos := qdiv A.m2Pos (qmul 2 A.m1Pos)
    let lamStarNeg := qdiv A.m2Neg (qmul 2 A.m1Neg)
    .frozen (qdiv (qmul nuStarNeg lamStarNeg) (qmul nuStarPos lamStarPos))
      nuStarPos nuStarNeg

/-- The branch structure of `cdf` after the support checks, as a function of
the accumulated term statistics: the no-negative and no-positive early
returns, the one-positive/one-negative special case (whose two guarded
returns fall through to the general case when neither guard holds), and the
exact/Satterthwaite tail. -/
def cdfCore (e : Engine) (pf : ℚ → ℚ → ℚ → ℚ → ℚ × ℕ)
    (dv : List ChiSquareTerm → ℚ → ℚ) (w : ℚ) (A : TermAcc) : CdfResult :=
  if A.numNeg = 0 then .num 0
  else if A.numPos = 0 then .num 1
  else if A.numNeg = 1 ∧ A.numPos = 1 then
    let Nstar := qsub (qadd (qsub e.N (qofNat e.qF)) e.a) 1
    let Fstar := qdiv w (qmul Nstar (qsub e.H1 w))
    if 0 ≤ A.lastPos ∧ A.lastNeg = 0 then
      .pair (pf Fstar Nstar 1 A.lastPos).1 (pf Fstar Nstar 1 A.lastPos).2
    else if A.lastPos = 0 ∧ 0 < A.lastNeg then
      .num (qsub 1 (pf (qdiv 1 Fstar) 1 Nstar A.lastNeg).1)
    else cdfTail dv e.exact A
  else cdfTail dv e.exact A

/-- Translation of `cdf`.  `pf` is the noncentral-F primitive `probf`
(modelled from the spec: it returns a `(probability, method-tag)` pair, as
its other call sites unpack); `dv` is the Davies weighted-chi-square solver
(modelled from the spec: it returns the CDF value at a point). -/
def cdf (e : Engine) (pf : ℚ → ℚ → ℚ → ℚ → ℚ × ℕ)
    (dv : List ChiSquareTerm → ℚ → ℚ) (w : ℚ) : CdfResult :=
  if e.H1 ≤ 0 ∨ w ≤ e.H0 then .num 0
  else if qsub e.H1 w ≤ 0 then .num 1
  else cdfCore e pf dv w (accumTerms e w)

/-- The lambda `quantFunc = lambda n: quantile - self.cdf(n)` handed to the
bisection solver.  When `cdf` returns a non-float (the `probf` tuple or the
frozen distribution), the subtraction raises a `TypeError`, modelled as
`none`. -/
def quantFunc (e : Engine) (pf : ℚ → ℚ → ℚ → ℚ → ℚ × ℕ)
    (dv : List ChiSquareTerm → ℚ → ℚ) (quantile n : ℚ) : Option ℚ :=
  match cdf e pf dv n with
  | .num x => some (qsub quantile x)
  | _ => none

/-- Default `xtol` of `scipy.optimize.bisect`, 2e-12 (the engine never passes
its own tolerance). -/
def xtolDefault : ℚ := mkRat 1 500000000000

/-- Default `rtol` of `scipy.optimize.bisect`, four machine epsilons. -/
def rtolDefault : ℚ := mkRat 1 1125899906842624

/-- Iteration loop of `scipy.optimize.bisect` (Zeros/bisect.c): the probe
interval is halved each round, the left endpoint advances to the midpoint
when the midpoint value has the sign of the initial left value, and the
midpoint is returned once it is a root or the half-interval is below
`xtol + rtol * |xm|`.  Exhausting the iterations raises. -/
def bisectLoop (f : ℚ → Option ℚ) (fa xt rt : ℚ) :
    ℕ → ℚ → ℚ → Except String ℚ
  | 0, _, _ => .error "Failed to converge after 100 iterations."
  | fuel + 1, xpre, dm =>
    match f (qadd xpre (qdiv dm 2)) with
    | none => .error "TypeError: unsupported operand types for subtraction"
    | some fm =>
      if fm = 0 ∨ qabs (qdiv dm 2) <
          qadd xt (qmul rt (qabs (qadd xpre (qdiv dm 2)))) then
        .ok (qadd xpre (qdiv dm 2))
      else
        bisectLoop f fa xt rt fuel
          (if 0 ≤ qmul fm fa then qadd xpre (qdiv dm 2) else xpre)
          (qdiv dm 2)

/-- Entry of `scipy.optimize.bisect`: evaluate both endpoints, reject an
unbracketed sign configuration, return an endpoint that is already a root,
and otherwise iterate. -/
def bisect (f : ℚ → Option ℚ) (xa xb xt rt : ℚ) (maxiter : ℕ) :
    Except String ℚ :=
  match f xa with
  | none => .error "TypeError: unsupported operand types for subtraction"
  | some fa =>
    match f xb with
    | none => .error "TypeError: unsupported operand types for subtraction"
    | some fb =>
      if 0 < qmul fa fb then .error "f(a) and f(b) must have different signs"
      else if fa = 0 then .ok xa
      else if fb = 0 then .ok xb
      else bisectLoop f fa xt rt maxiter xa (qsub xb xa)

/-- Translation of `inverseCDF`: return 0 outright when `H1 <= 0`, otherwise
bisect `quantile - cdf` over `[H0, H1]` with scipy defaults (the class
constants `ACCURACY` and `MAX_ITERATIONS` are not passed), wrapping any
solver failure in the quantile-failure message. -/
def inverseCDF (e : Engine) (pf : ℚ → ℚ → ℚ → ℚ → ℚ × ℕ)
    (dv : List ChiSquareTerm → ℚ → ℚ) (quantile : ℚ) : Except String ℚ :=
  if e.H1 ≤ 0 then .ok 0
  else
    match bisect (quantFunc e pf dv quantile) e.H0 e.H1 xtolDefault
      rtolDefault 100 with
    | .ok w => .ok w
    | .error msg =>
      .error ("Failed to determine non-centrality quantile: " ++ msg)

/-! Concrete model inputs used to settle the claims on explicit runs.  The
first scenario is a two-response design: essence matrix of four replicated
2x2 identity blocks, identity fixed contrast, theta difference
`diag(2, 1)`, identity covariance, Gaussian contrast `(1, 1)ᵀ`, unit
covariate deviation, per-group size 1.  The second is a one-response design
with per-group size 4 and a zero Gaussian contrast. -/

/-- 1x1 identity matrix. -/
def mI1 : Mat := ⟨1, 1, [[1]]⟩

/-- 2x2 identity matrix. -/
def mI2 : Mat := ⟨2, 2, [[1, 0], [0, 1]]⟩

/-- Essence design: four stacked copies of the 2x2 identity. -/
def mFE8 : Mat := ⟨8, 2, [[1,0],[0,1],[1,0],[0,1],[1,0],[0,1],[1,0],[0,1]]⟩

/-- Theta difference `diag(2, 1)` of the first scenario. -/
def mTheta2 : Mat := ⟨2, 2, [[2, 0], [0, 1]]⟩

/-- Gaussian contrast of the first scenario. -/
def mCG2 : Mat := ⟨2, 1, [[1], [1]]⟩

/-- Cholesky factor of the first scenario `T1 = diag(4, 4)`. -/
def mFT1e0 : Mat := ⟨2, 2, [[2, 0], [0, 2]]⟩

/-- A concrete noncentral-F collaborator satisfying the spec contract: it
returns a probability (constantly 1/3) and a method tag. -/
def pf0 : ℚ → ℚ → ℚ → ℚ → ℚ × ℕ := fun _ _ _ _ => (mkRat 1 3, 0)

/-- A concrete Davies-solver collaborator satisfying the spec contract: it
returns a probability (constantly 1/2). -/
def dv0 : List ChiSquareTerm → ℚ → ℚ := fun _ _ => mkRat 1 2

/-- The engine built by `initializeModel` on the first scenario, with the
eigendecomposition of `S = diag(4/5, 1/5)` delivered in diagonal order
`[4/5, 1/5]` — the order LAPACK dgeev (hence `np.linalg.eig`) produces on a
matrix that is already upper triangular. -/
def e0 : Engine :=
  ⟨⟨2, 2, [[4, 0], [0, 4]]⟩, mFT1e0, ⟨2, 2, [[mkRat 4 5, 0], [0, mkRat 1 5]]⟩,
    ⟨2, 1, [[4], [4]]⟩, 20, 16, 2, 0, 8, [mkRat 1 5, mkRat 4 5], 2, false,
    [], none⟩

/-- Cholesky factor of the second scenario `T1 = (4)`. -/
def m2c : Mat := ⟨1, 1, [[2]]⟩

/-- Zero 1x1 matrix, the Gaussian contrast of the second scenario. -/
def mZ1 : Mat := ⟨1, 1, [[0]]⟩

/-- The engine built by `initializeModel` on the second scenario. -/
def e1c : Engine :=
  ⟨⟨1, 1, [[4]]⟩, m2c, mI1, mZ1, 4, 0, 1, 0, 4, [1], 1, false, [], none⟩

/-- Positive-definite diagonal covariance `diag(1, 2)`. -/
def sig12 : Mat := ⟨2, 2, [[1, 0], [0, 2]]⟩

/-- Indefinite (but nonsingular) covariance `diag(1, -1)`. -/
def sigNeg : Mat := ⟨2, 2, [[1, 0], [0, -1]]⟩

/-- Singular covariance `diag(1, 0)`, which has a zero eigenvalue. -/
def sigSing : Mat := ⟨2, 2, [[1, 0], [0, 0]]⟩

/-- A non-square covariance input. -/
def sigNonSq : Mat := ⟨1, 2, [[1, 2]]⟩

/-- Theta difference used with the 2x2 covariances over a 1x1 design. -/
def th12 : Mat := ⟨1, 2, [[2, 1]]⟩

/-- The engine built on the indefinite-covariance scenario: construction
succeeds with the not-positive-definite error recorded. -/
def e8 : Engine :=
  ⟨mI1, mI1, mI1, mI1, 3, 0, 1, 0, 1, [1], 1, false,
    [errNotPositiveDefinite], none⟩

/-- A non-symmetric square matrix used to witness the symmetrisation claim. -/
def mAsym : Mat := ⟨2, 2, [[1, 2], [3, 4]]⟩


/-- Decidable check that a list is strictly descending. -/
def strictDescB : List ℚ → Bool
  | [] => true
  | [_] => true
  | x :: y :: rest => decide (y < x) && strictDescB (y :: rest)

/-- Decidable check that a list is strictly ascending. -/
def strictAscB : List ℚ → Bool
  | [] => true
  | [_] => true
  | x :: y :: rest => decide (x < y) && strictAscB (y :: rest)

/-! Correspondence of the kernel-computable rational operations with the
standard field operations of `ℚ`. -/

theorem qadd_eq (a b : ℚ) : qadd a b = a + b := by
  unfold qadd
  conv_rhs => rw [← Rat.num_div_den a, ← Rat.num_div_den b]
  rw [Rat.mkRat_eq_div, div_add_div _ _ (by positivity) (by positivity)]
  push_cast
  ring_nf

theorem qneg_eq (a : ℚ) : qneg a = -a := by
  unfold qneg
  conv_rhs => rw [← Rat.num_div_den a]
  rw [Rat.mkRat_eq_div]
  push_cast
  ring

theorem qsub_eq (a b : ℚ) : qsub a b = a - b := by
  rw [qsub, qadd_eq, qneg_eq, sub_eq_add_neg]

theorem qmul_eq (a b : ℚ) : qmul a b = a * b := by
  unfold qmul
  conv_rhs => rw [← Rat.num_div_den a, ← Rat.num_div_den b]
  rw [Rat.mkRat_eq_div, div_mul_div_comm]
  push_cast
  ring_nf

theorem den_div_num_mul (a : ℚ) (h0 : a.num ≠ 0) :
    ((a.den : ℚ) / (a.num : ℚ)) * a = 1 := by
  have hden : ((a.den : ℚ)) ≠ 0 := by positivity
  have hnum : ((a.num : ℚ)) ≠ 0 := Int.cast_ne_zero.mpr h0
  have hx : a * (a.den : ℚ) = (a.num : ℚ) :=
    (eq_div_iff hden).mp (Rat.num_div_den a).symm
  rw [div_mul_eq_mul_div, mul_comm, hx, div_self hnum]

theorem qinv_eq (a : ℚ) : qinv a = a⁻¹ := by
  unfold qinv
  rcases eq_or_ne a.num 0 with h0 | h0
  · rw [if_pos h0, Rat.num_eq_zero.mp h0]; simp
  · rw [if_neg h0, Rat.mkRat_eq_div]
    apply eq_inv_of_mul_eq_one_left
    rcases lt_or_gt_of_ne h0 with hneg | hpos
    · have hna : ((a.num.natAbs : ℚ)) = -(a.num : ℚ) := by
        rw [Int.cast_natAbs]
        rw [abs_of_neg hneg]; push_cast; ring
      rw [Int.sign_eq_neg_one_of_neg hneg, hna]
      push_cast
      rw [show ((-1 * (a.den:ℚ)) = -((a.den:ℚ))) from by ring, neg_div_neg_eq]
      exact den_div_num_mul a h0
    · have hna : ((a.num.natAbs : ℚ)) = (a.num : ℚ) := by
        rw [Int.cast_natAbs]
        rw [abs_of_pos hpos]
      rw [Int.sign_eq_one_of_pos hpos, hna]
      push_cast
      rw [one_mul]
      exact den_div_num_mul a h0

theorem qdiv_eq (a b : ℚ) : qdiv a b = a / b := by
  rw [qdiv, qmul_eq, qinv_eq, div_eq_mul_inv]

theorem qofNat_eq (n : ℕ) : qofNat n = (n : ℚ) := by
  rw [qofNat, Rat.mkRat_eq_div]
  simp

theorem qabs_eq (a : ℚ) : qabs a = |a| := by
  unfold qabs
  rcases lt_or_ge a.num 0 with h | h
  · rw [if_pos h, qneg_eq, eq_comm]
    exact abs_of_neg (Rat.num_neg.mp h)
  · rw [if_neg (not_lt.mpr h), eq_comm]
    exact abs_of_nonneg (Rat.num_nonneg.mp h)

theorem qsum_eq (l : List ℚ) : qsum l = l.sum := by
  induction l with
  | nil => rfl
  | cons x xs ih => rw [qsum, qadd_eq, ih, List.sum_cons]


/-! Entry-level lemmas for the matrix operations, and the symmetrisation
claim. -/

theorem get_buildMat (r c : ℕ) (f : ℕ → ℕ → ℚ) (i j : ℕ) :
    (buildMat r c f).get i j = if i < r ∧ j < c then f i j else 0 := by
  unfold buildMat Mat.get
  rcases Nat.lt_or_ge i r with hi | hi
  · have h1 : (((List.range r).map fun i => (List.range c).map fun j => f i j).getD i []) =
        ((List.range c).map fun j => f i j) := by
      rw [List.getD_eq_getElem?_getD, List.getElem?_map, List.getElem?_range hi]
      rfl
    rw [h1]
    rcases Nat.lt_or_ge j c with hj | hj
    · rw [List.getD_eq_getElem?_getD, List.getElem?_map, List.getElem?_range hj]
      simp [hi, hj]
    · rw [List.getD_eq_getElem?_getD, List.getElem?_eq_none (by simpa using hj)]
      simp [Nat.not_lt.mpr hj]
  · have h1 : (((List.range r).map fun i => (List.range c).map fun j => f i j).getD i []) = [] := by
      rw [List.getD_eq_getElem?_getD, List.getElem?_eq_none (by simpa using hi)]
      rfl
    rw [h1]
    simp [Nat.not_lt.mpr hi]


theorem get_tril (m : Mat) (i j : ℕ) :
    (tril m).get i j =
      if i < m.rows ∧ j < m.cols then (if j ≤ i then m.get i j else 0) else 0 := by
  unfold tril
  rw [get_buildMat]

theorem get_triu1 (m : Mat) (i j : ℕ) :
    (triu1 m).get i j =
      if i < m.rows ∧ j < m.cols then (if i + 1 ≤ j then m.get i j else 0) else 0 := by
  unfold triu1
  rw [get_buildMat]

theorem get_transpose (m : Mat) (i j : ℕ) :
    (transpose m).get i j =
      if i < m.cols ∧ j < m.rows then m.get j i else 0 := by
  unfold transpose
  rw [get_buildMat]

theorem get_matAdd (a b : Mat) (i j : ℕ) :
    (matAdd a b).get i j =
      if i < a.rows ∧ j < a.cols then qadd (a.get i j) (b.get i j) else 0 := by
  unfold matAdd
  rw [get_buildMat]

theorem get_forceSymmetric (m : Mat) (hsq : m.cols = m.rows) (i j : ℕ)
    (hi : i < m.rows) (hj : j < m.rows) :
    (forceSymmetric m).get i j = if j ≤ i then m.get i j else m.get j i := by
  have hi' : i < m.cols := by omega
  have hj' : j < m.cols := by omega
  unfold forceSymmetric
  rw [get_matAdd]
  rw [if_pos (⟨hi, hj'⟩ : i < (tril m).rows ∧ j < (tril m).cols)]
  rw [get_tril, get_triu1, get_transpose]
  rw [if_pos ⟨hi, hj'⟩]
  rw [if_pos (⟨hi', hj⟩ : i < (transpose m).rows ∧ j < (transpose m).cols)]
  rcases le_or_lt j i with hle | hlt
  · simp only [if_pos hle, if_neg (show ¬(i + 1 ≤ j) by omega), qadd_eq,
      add_zero]
  · simp only [if_neg (show ¬(j ≤ i) by omega),
      if_pos (show i + 1 ≤ j by omega), qadd_eq, zero_add]
    exact if_pos ⟨hi', hj⟩

theorem fsym_out_of_bounds (m : Mat) (i j : ℕ)
    (h : ¬(i < m.rows ∧ j < m.cols)) : (forceSymmetric m).get i j = 0 := by
  unfold forceSymmetric
  rw [get_matAdd]
  exact if_neg h

theorem fsym_rows (m : Mat) : (forceSymmetric m).rows = m.rows := rfl

theorem fsym_cols (m : Mat) : (forceSymmetric m).cols = m.cols := rfl

theorem tsp_rows (m : Mat) : (transpose m).rows = m.cols := rfl

theorem tsp_cols (m : Mat) : (transpose m).cols = m.rows := rfl

/-- C9: for every square matrix m, forceSymmetric(m) returns a matrix r
that is exactly equal to its own transpose, and whose lower triangle
including the diagonal equals the lower triangle of m. -/
theorem claimC9_theorem (m : Mat) (hsq : m.cols = m.rows) :
    ((transpose (forceSymmetric m)).rows = (forceSymmetric m).rows ∧
     (transpose (forceSymmetric m)).cols = (forceSymmetric m).cols ∧
     ∀ i j, (transpose (forceSymmetric m)).get i j = (forceSymmetric m).get i j) ∧
    (∀ i j, j ≤ i → i < m.rows → (forceSymmetric m).get i j = m.get i j) := by
  constructor
  · refine ⟨by rw [tsp_rows, fsym_rows, fsym_cols, hsq],
      by rw [tsp_cols, fsym_rows, fsym_cols, hsq], ?_⟩
    intro i j
    rw [get_transpose]
    by_cases hij : i < m.rows ∧ j < m.rows
    · rw [if_pos (by simp only [fsym_rows, fsym_cols]; omega :
        i < (forceSymmetric m).cols ∧ j < (forceSymmetric m).rows)]
      rw [get_forceSymmetric m hsq j i hij.2 hij.1,
        get_forceSymmetric m hsq i j hij.1 hij.2]
      rcases le_or_lt j i with hle | hlt
      · rcases Nat.eq_or_lt_of_le hle with heq | hlt2
        · subst heq; simp
        · simp only [if_neg (show ¬(i ≤ j) by omega), if_pos hle]
      · simp only [if_pos (show i ≤ j by omega),
          if_neg (show ¬(j ≤ i) by omega)]
    · rw [if_neg (by simp only [fsym_rows, fsym_cols]; omega)]
      rw [fsym_out_of_bounds m i j (by omega)]
  · intro i j hji hi
    rw [get_forceSymmetric m hsq i j hi (by omega)]
    rw [if_pos hji]

/-- Witness for C9 at the concrete non-symmetric matrix
`[[1, 2], [3, 4]]`. -/
theorem claimC9_witness :
    mAsym.cols = mAsym.rows ∧
    (transpose (forceSymmetric mAsym)).get 0 1 = (forceSymmetric mAsym).get 0 1 ∧
    (forceSymmetric mAsym).get 1 0 = mAsym.get 1 0 := by
  refine ⟨by decide, ?_, ?_⟩
  · exact (claimC9_theorem mAsym (by decide)).1.2.2 0 1
  · exact (claimC9_theorem mAsym (by decide)).2 1 0 (by decide) (by decide)


/-! Inversion of a successful construction, and the construction-time
claims. -/

theorem initializeModel_fields (test : TestTag) (FE : Mat) (n : ℚ)
    (Cf CG Th Sg : Mat) (sdg : ℚ) (ex : Bool) (sigmaEig : List ℚ) (FT1 : Mat)
    (sEigOut : List ℚ) (svecsOut : Mat) (e : Engine)
    (h : initializeModel test FE n Cf CG Th Sg sdg ex sigmaEig FT1 sEigOut
      svecsOut = .ok e) :
    e.sEigenValues = sEigOut.reverse ∧
    e.sStar = sEigOut.reverse.countP (fun v => decide (0 < v)) ∧
    e.H0 = (if (match sEigOut.reverse with
        | [] => (0 : ℚ)
        | v :: _ => qmul e.H1 (qsub 1 v)) ≤ 0 then 0
      else (match sEigOut.reverse with
        | [] => (0 : ℚ)
        | v :: _ => qmul e.H1 (qsub 1 v))) ∧
    e.testAttr = none := by
  unfold initializeModel at h
  split at h
  · exact Except.noConfusion h
  · split at h
    · exact Except.noConfusion h
    · split at h
      · exact Except.noConfusion h
      · injection h with h2
        subst h2
        exact ⟨rfl, rfl, rfl, rfl⟩

/-- C10: for every non-square matrix handed to it as `sigma_star`,
`isPositiveDefinite` raises immediately, so constructing the engine with a
non-square `sigma_star` fails fast with a raised exception instead of
recording an entry in the error list (the construction produces no object,
hence no inspectable error list, at all).  The hypotheses state that the
stages the source executes first — the two matrix inversions and the
Cholesky factorisation of `T1` — succeed, so control genuinely reaches the
square check. -/
theorem claimC10_theorem (test : TestTag) (FE : Mat) (n : ℚ)
    (Cf CG Th Sg : Mat) (sdg : ℚ) (ex : Bool) (sigmaEig : List ℚ) (FT1 : Mat)
    (sEigOut : List ℚ) (svecsOut : Mat)
    (h1 : exOk (npInv (ftfOf FE)) = true)
    (h2 : exOk (npInv (pptOf FE Cf n)) = true)
    (hch : isCholOfB FT1 (t1Of FE Cf n) = true)
    (hsq : Sg.rows ≠ Sg.cols) :
    initializeModel test FE n Cf CG Th Sg sdg ex sigmaEig FT1 sEigOut
      svecsOut = .error "Matrix must be non-null, square" := by
  unfold initializeModel
  rcases hA : npInv (ftfOf FE) with eA | MA
  · rw [hA] at h1; exact absurd h1 (by simp [exOk])
  · rcases hB : npInv (pptOf FE Cf n) with eB | MB
    · rw [hB] at h2; exact absurd h2 (by simp [exOk])
    · simp only [hA, hB]
      unfold getSigmaStarInverse isPositiveDefinite
      rw [if_pos hsq]

/-- Witness for C10 at the concrete 1x2 covariance input. -/
theorem claimC10_witness :
    initializeModel TestTag.HLT mI1 1 mI1 mI1 th12 sigNonSq 1 false [] mI1
      [1] mI1 = .error "Matrix must be non-null, square" :=
  claimC10_theorem TestTag.HLT mI1 1 mI1 mI1 th12 sigNonSq 1 false [] mI1
    [1] mI1 (by decide) (by decide) (by decide) (by decide)

/-- C8 counterexample: for the square covariance `diag(1, 0)`, which has the
eigenvalue 0, construction does NOT merely append the error and continue —
after appending it, the Hotelling-Lawley path inverts `sigma_star`; the
inversion of the singular matrix raises `LinAlgError`, the constructor
propagates it, and no engine (hence no inspectable error list) exists. -/
theorem claimC8_counterexample :
    sigSing.rows = sigSing.cols ∧ isEigListOfB [1, 0] sigSing = true ∧
    ¬((0 : ℚ) > 0) ∧
    initializeModel TestTag.HLT mI1 1 mI1 mI1 th12 sigSing 1 false [1, 0]
      mI1 [1] mI1 = .error "Singular matrix" := by
  decide

/-- C8 (amended): for every square covariance `sigma_star` with a
non-positive eigenvalue that is still nonsingular, construction appends the
not-positive-definite error to the engine error list and completes without
throwing; when `sigma_star` is additionally singular (eigenvalue 0), the
error is appended but the subsequent matrix inversion raises, so
construction throws after all.  This theorem proves the nonsingular half;
the singular half is the counterexample. -/
theorem claimC8_theorem (test : TestTag) (FE : Mat) (n : ℚ)
    (Cf CG Th Sg : Mat) (sdg : ℚ) (ex : Bool) (sigmaEig : List ℚ) (FT1 : Mat)
    (sEigOut : List ℚ) (svecsOut : Mat)
    (h1 : exOk (npInv (ftfOf FE)) = true)
    (h2 : exOk (npInv (pptOf FE Cf n)) = true)
    (hch : isCholOfB FT1 (t1Of FE Cf n) = true)
    (hsq : Sg.rows = Sg.cols)
    (hval : isEigListOfB sigmaEig Sg = true)
    (hbad : sigmaEig.all (fun v => decide (0 < v)) = false)
    (hns : det Sg ≠ 0) :
    exOk (initializeModel test FE n Cf CG Th Sg sdg ex sigmaEig FT1 sEigOut
      svecsOut) = true ∧
    (exGetD defaultEngine (initializeModel test FE n Cf CG Th Sg sdg ex
      sigmaEig FT1 sEigOut svecsOut)).errors = [errNotPositiveDefinite] := by
  unfold initializeModel
  rcases hA : npInv (ftfOf FE) with eA | MA
  · rw [hA] at h1; exact absurd h1 (by simp [exOk])
  · rcases hB : npInv (pptOf FE Cf n) with eB | MB
    · rw [hB] at h2; exact absurd h2 (by simp [exOk])
    · simp only [hA, hB]
      unfold getSigmaStarInverse isPositiveDefinite
      rw [if_neg (by omega : ¬Sg.rows ≠ Sg.cols)]
      rw [hbad]
      simp only [hltValueTruthy, Bool.or_true, Bool.false_eq_true, if_false,
        if_true, List.nil_append]
      rcases hC : npInv Sg with eC | MC
      · exfalso
        unfold npInv at hC
        rw [if_neg (by omega : ¬Sg.rows ≠ Sg.cols), if_neg hns] at hC
        exact Except.noConfusion hC
      · exact ⟨rfl, rfl⟩

/-- Witness for the amended C8 at the indefinite nonsingular covariance
`diag(1, -1)`: construction succeeds and the error list holds exactly the
not-positive-definite error. -/
theorem claimC8_witness :
    exOk (initializeModel TestTag.HLT mI1 1 mI1 mI1 th12 sigNeg 1 false
      [1, -1] mI1 [1] mI1) = true ∧
    (exGetD defaultEngine (initializeModel TestTag.HLT mI1 1 mI1 mI1 th12
      sigNeg 1 false [1, -1] mI1 [1] mI1)).errors = [errNotPositiveDefinite] :=
  claimC8_theorem TestTag.HLT mI1 1 mI1 mI1 th12 sigNeg 1 false [1, -1] mI1
    [1] mI1 (by decide) (by decide) (by decide) (by decide) (by decide)
    (by decide) (by decide)


theorem strictDescB_iff (l : List ℚ) :
    strictDescB l = true ↔ l.Chain' (· > ·) := by
  induction l with
  | nil => simp [strictDescB]
  | cons x xs ih =>
    cases xs with
    | nil => simp [strictDescB]
    | cons y rest =>
      rw [List.chain'_cons, ← ih]
      simp [strictDescB, and_comm]

theorem strictAscB_iff (l : List ℚ) :
    strictAscB l = true ↔ l.Chain' (· < ·) := by
  induction l with
  | nil => simp [strictAscB]
  | cons x xs ih =>
    cases xs with
    | nil => simp [strictAscB]
    | cons y rest =>
      rw [List.chain'_cons, ← ih]
      simp [strictAscB, and_comm]

theorem asc_reverse_desc (l : List ℚ) (h : strictAscB l = true) :
    strictDescB l.reverse = true := by
  rw [strictDescB_iff]
  rw [List.chain'_reverse]
  exact (strictAscB_iff l).mp h


/-- C2 counterexample: on a valid model input whose `S` is the diagonal
matrix `diag(4/5, 1/5)`, the library eigendecomposition (LAPACK dgeev via
`np.linalg.eig`, which returns the diagonal of an already-triangular matrix
in diagonal order and promises no order in general) yields `[4/5, 1/5]`;
`initialize` merely reverses this list, storing `[1/5, 4/5]`, which is not
strictly descending — its unconditional reversal assumes an ascending
library order that `np.linalg.eig` does not provide. -/
theorem claimC2_counterexample :
    initializeModel TestTag.HLT mFE8 1 mI2 mCG2 mTheta2 mI2 1 false [1, 1]
      mFT1e0 [mkRat 4 5, mkRat 1 5] mI2 = .ok e0 ∧
    isCholOfB mFT1e0 e0.T1 = true ∧
    isEigPairsOfB [mkRat 4 5, mkRat 1 5] mI2 e0.S = true ∧
    isEigListOfB [1, 1] mI2 = true ∧
    e0.sEigenValues = [mkRat 1 5, mkRat 4 5] ∧
    strictDescB e0.sEigenValues = false ∧
    e0.sStar = 2 := by decide

/-- C2 (amended): after a successful construction, `sEigenValues` is the
reversal of the library eigenvalue sequence — strictly descending precisely
when the library happened to return its values strictly ascending — and
`sStar` equals the count of strictly positive entries of the stored
sequence. -/
theorem claimC2_theorem (test : TestTag) (FE : Mat) (n : ℚ)
    (Cf CG Th Sg : Mat) (sdg : ℚ) (ex : Bool) (sigmaEig : List ℚ) (FT1 : Mat)
    (sEigOut : List ℚ) (svecsOut : Mat) (e : Engine)
    (h : initializeModel test FE n Cf CG Th Sg sdg ex sigmaEig FT1 sEigOut
      svecsOut = .ok e) :
    e.sEigenValues = sEigOut.reverse ∧
    (strictAscB sEigOut = true → strictDescB e.sEigenValues = true) ∧
    e.sStar = e.sEigenValues.countP (fun v => decide (0 < v)) := by
  obtain ⟨h1, h2, -, -⟩ := initializeModel_fields test FE n Cf CG Th Sg sdg
    ex sigmaEig FT1 sEigOut svecsOut e h
  refine ⟨h1, ?_, ?_⟩
  · intro hasc
    rw [h1]
    exact asc_reverse_desc sEigOut hasc
  · rw [h2, h1]

/-- Witness for the amended C2 on the concrete diagonal-`S` scenario. -/
theorem claimC2_witness :
    e0.sEigenValues = ([mkRat 4 5, mkRat 1 5] : List ℚ).reverse ∧
    (strictAscB [mkRat 4 5, mkRat 1 5] = true →
      strictDescB e0.sEigenValues = true) ∧
    e0.sStar = e0.sEigenValues.countP (fun v => decide (0 < v)) :=
  claimC2_theorem TestTag.HLT mFE8 1 mI2 mCG2 mTheta2 mI2 1 false [1, 1]
    mFT1e0 [mkRat 4 5, mkRat 1 5] mI2 e0 (by decide)

/-- C4 counterexample: on the same diagonal-`S` run, the largest eigenvalue
of `S` is 4/5, so the claimed `H0 = H1 * (1 - largest)` is `20 * 1/5 = 4`,
but the stored `H0` is `16`: the code computes `H1 * (1 - sEigenValues[0])`
and `sEigenValues[0]` is merely the last value of the unordered library
output, not the largest eigenvalue. -/
theorem claimC4_counterexample :
    initializeModel TestTag.HLT mFE8 1 mI2 mCG2 mTheta2 mI2 1 false [1, 1]
      mFT1e0 [mkRat 4 5, mkRat 1 5] mI2 = .ok e0 ∧
    isEigPairsOfB [mkRat 4 5, mkRat 1 5] mI2 e0.S = true ∧
    ([mkRat 4 5, mkRat 1 5] : List ℚ).all
      (fun v => decide (v ≤ mkRat 4 5)) = true ∧
    e0.H1 = 20 ∧ e0.H0 = 16 ∧ qmul e0.H1 (qsub 1 (mkRat 4 5)) = 4 ∧
    e0.H0 ≠ qmul e0.H1 (qsub 1 (mkRat 4 5)) := by decide

/-- C4 (amended): after a successful construction, `H0` equals
`H1 * (1 - sEigenValues[0])` clamped to zero — where `sEigenValues[0]` is
the last entry of the library eigen output, the largest eigenvalue only
when that output is ascending — so `0 ≤ H0` always holds, and `H0 ≤ H1`
holds whenever `H1` is nonnegative and the stored eigenvalues are
nonnegative (as for a positive-semidefinite `S`). -/
theorem claimC4_theorem (test : TestTag) (FE : Mat) (n : ℚ)
    (Cf CG Th Sg : Mat) (sdg : ℚ) (ex : Bool) (sigmaEig : List ℚ) (FT1 : Mat)
    (sEigOut : List ℚ) (svecsOut : Mat) (e : Engine)
    (h : initializeModel test FE n Cf CG Th Sg sdg ex sigmaEig FT1 sEigOut
      svecsOut = .ok e) :
    e.H0 = max 0 (match e.sEigenValues with
      | [] => (0 : ℚ)
      | v :: _ => e.H1 * (1 - v)) ∧
    0 ≤ e.H0 ∧
    (0 ≤ e.H1 → (∀ v ∈ e.sEigenValues, 0 ≤ v) → e.H0 ≤ e.H1) := by
  obtain ⟨h1, -, h3, -⟩ := initializeModel_fields test FE n Cf CG Th Sg sdg
    ex sigmaEig FT1 sEigOut svecsOut e h
  rcases hL : sEigOut.reverse with _ | ⟨v, rest⟩
  · rw [hL] at h1 h3
    replace h3 : e.H0 = if (0 : ℚ) ≤ 0 then 0 else 0 := h3
    rw [if_pos le_rfl] at h3
    rw [h1]
    refine ⟨by rw [h3]; simp, by rw [h3], ?_⟩
    intro hH1 _
    rw [h3]
    exact hH1
  · rw [hL] at h1 h3
    rw [h1]
    replace h3 : e.H0 = if qmul e.H1 (qsub 1 v) ≤ 0 then 0
      else qmul e.H1 (qsub 1 v) := h3
    rw [qmul_eq, qsub_eq] at h3
    have hmax : e.H0 = max 0 (e.H1 * (1 - v)) := by
      rw [h3]
      rcases le_or_lt (e.H1 * (1 - v)) 0 with hle | hlt
      · rw [if_pos hle, max_eq_left hle]
      · rw [if_neg (not_le.mpr hlt), max_eq_right (le_of_lt hlt)]
    refine ⟨hmax, by rw [hmax]; exact le_max_left 0 _, ?_⟩
    intro hH1 hv
    have hv0 : 0 ≤ v := hv v (by simp)
    rw [hmax]
    apply max_le hH1
    calc e.H1 * (1 - v) ≤ e.H1 * 1 :=
          mul_le_mul_of_nonneg_left (by linarith) hH1
    _ = e.H1 := mul_one e.H1

/-- Witness for the amended C4 on the concrete diagonal-`S` scenario. -/
theorem claimC4_witness :
    e0.H0 = max 0 (match e0.sEigenValues with
      | [] => (0 : ℚ)
      | v :: _ => e0.H1 * (1 - v)) ∧
    0 ≤ e0.H0 ∧
    (0 ≤ e0.H1 → (∀ v ∈ e0.sEigenValues, 0 ≤ v) → e0.H0 ≤ e0.H1) :=
  claimC4_theorem TestTag.HLT mFE8 1 mI2 mCG2 mTheta2 mI2 1 false [1, 1]
    mFT1e0 [mkRat 4 5, mkRat 1 5] mI2 e0 (by decide)

/-- C7: for every successfully constructed engine, calling
`setPerGroupSampleSize` or `setBeta` does not recompute anything: both
mutators first read `self.test`, an attribute `initialize` never assigns,
so both raise `AttributeError` unconditionally (and their `initialize`
call, were it reached, passes 12 positional arguments to the 9-parameter
method).  The claim that they successfully recompute all derived state is
contradicted by the code. -/
theorem claimC7_theorem (test : TestTag) (FE : Mat) (n : ℚ)
    (Cf CG Th Sg : Mat) (sdg : ℚ) (ex : Bool) (sigmaEig : List ℚ) (FT1 : Mat)
    (sEigOut : List ℚ) (svecsOut : Mat) (e : Engine)
    (h : initializeModel test FE n Cf CG Th Sg sdg ex sigmaEig FT1 sEigOut
      svecsOut = .ok e) (n2 b2 : ℚ) :
    e.testAttr = none ∧
    setPerGroupSampleSize e n2 = .error
      "AttributeError: NonCentralityDistribution object has no attribute test" ∧
    setBeta e b2 = .error
      "AttributeError: NonCentralityDistribution object has no attribute test" := by
  obtain ⟨-, -, -, h4⟩ := initializeModel_fields test FE n Cf CG Th Sg sdg
    ex sigmaEig FT1 sEigOut svecsOut e h
  refine ⟨h4, ?_, ?_⟩
  · simp [setPerGroupSampleSize, pyGetAttrTest, h4]
  · simp [setBeta, pyGetAttrTest, h4]

/-- Witness for C7 on the concrete one-response engine. -/
theorem claimC7_witness :
    e1c.testAttr = none ∧
    setPerGroupSampleSize e1c 5 = .error
      "AttributeError: NonCentralityDistribution object has no attribute test" ∧
    setBeta e1c 1 = .error
      "AttributeError: NonCentralityDistribution object has no attribute test" :=
  claimC7_theorem TestTag.HLT mI1 4 mI1 mZ1 mI1 mI1 1 false [1] m2c [1] mI1
    e1c (by decide) 5 1


/-! The sigma-star-inverse, cdf-shape, special-case and quantile claims. -/

/-- C1: contrary to the claim, the UNIREP family does not receive the
sphericity-adjusted scalar-multiple-of-identity inverse.  The source guard
`if test == Constants.HLT or Constants.HLT.value:` is, by Python operator
precedence, `(test == HLT) or truthy(HLT.value)` — always true — so every
test type takes the direct-inverse branch.  At the positive-definite input
`diag(1, 2)` with a UNIREP test tag the function returns `diag(1, 1/2)`,
while the claimed scalar form `b*eps/trace * I` is `(3/5) * I`. -/
theorem claimC1_theorem :
    getSigmaStarInverse [] sig12 TestTag.UNIREP_GG [1, 2] =
      .ok (⟨2, 2, [[1, 0], [0, mkRat 1 2]]⟩, []) ∧
    isEigListOfB [1, 2] sig12 = true ∧
    specUnirepSigmaStarInverse sig12 = smul (mkRat 3 5) (identity 2) ∧
    matEqB ⟨2, 2, [[1, 0], [0, mkRat 1 2]]⟩
      (specUnirepSigmaStarInverse sig12) = false := by decide

/-- C3: contrary to the claim, `cdf` does not return a single numeric
probability in every branch.  On the first concrete engine (exact=False,
one positive and two negative weights at w=18) the Satterthwaite branch
returns `f(x, nuStarPositive, nuStarNegative)` — the frozen scipy
distribution object, because the source calls the `scipy.stats.f` class
where it means `f.cdf` — and on the second engine the one-positive/
one-negative special case returns the `(prob, method)` tuple of `probf`
without unpacking it. -/
theorem claimC3_theorem :
    initializeModel TestTag.HLT mFE8 1 mI2 mCG2 mTheta2 mI2 1 false [1, 1]
      mFT1e0 [mkRat 4 5, mkRat 1 5] mI2 = .ok e0 ∧
    cdf e0 pf0 dv0 18 = .frozen (mkRat 20 3) 6 (mkRat 32 9) ∧
    isNum (cdf e0 pf0 dv0 18) = false ∧
    initializeModel TestTag.HLT mI1 4 mI1 mZ1 mI1 mI1 1 false [1] m2c [1]
      mI1 = .ok e1c ∧
    cdf e1c pf0 dv0 2 = .pair (mkRat 1 3) 0 ∧
    isNum (cdf e1c pf0 dv0 2) = false := by decide

theorem accumTerm_posInv (acc : TermAcc) (lam nu delta : ℚ)
    (h : 1 ≤ acc.numPos ∧ (acc.numPos = 1 → acc.lastPos = 0)) :
    1 ≤ (accumTerm acc lam nu delta).numPos ∧
    ((accumTerm acc lam nu delta).numPos = 1 →
      (accumTerm acc lam nu delta).lastPos = 0) := by
  obtain ⟨ha, hb⟩ := h
  unfold accumTerm
  split_ifs with h1 h2
  · refine ⟨by simp, fun hc => ?_⟩
    simp at hc
    omega
  · exact ⟨by simpa using ha, by simpa using hb⟩
  · exact ⟨by simpa using ha, by simpa using hb⟩

theorem foldl_posInv (g : TermAcc → ℕ → TermAcc)
    (hg : ∀ acc k, (1 ≤ acc.numPos ∧ (acc.numPos = 1 → acc.lastPos = 0)) →
      (1 ≤ (g acc k).numPos ∧ ((g acc k).numPos = 1 → (g acc k).lastPos = 0)))
    (ks : List ℕ) (acc : TermAcc)
    (h : 1 ≤ acc.numPos ∧ (acc.numPos = 1 → acc.lastPos = 0)) :
    1 ≤ (ks.foldl g acc).numPos ∧
    ((ks.foldl g acc).numPos = 1 → (ks.foldl g acc).lastPos = 0) := by
  induction ks generalizing acc with
  | nil => exact h
  | cons k ks ih => exact ih _ (hg acc k h)

theorem accumTerms_posInv (e : Engine) (w : ℚ) (hH1 : 0 < e.H1)
    (hw : w < e.H1) :
    1 ≤ (accumTerms e w).numPos ∧
    ((accumTerms e w).numPos = 1 → (accumTerms e w).lastPos = 0) := by
  have hb0 : 0 < qsub 1 (qdiv w e.H1) := by
    rw [qsub_eq, qdiv_eq]
    have hlt : w / e.H1 < 1 := (div_lt_one hH1).mpr hw
    linarith
  unfold accumTerms
  apply foldl_posInv
  · intro acc k hk
    exact accumTerm_posInv acc _ _ _ hk
  · unfold accumTerm
    rw [if_pos hb0]
    exact ⟨by simp, fun _ => by simp⟩

/-- C5 counterexample: a reachable engine state and evaluation point with
exactly one positive-weight and one negative-weight term whose negative
term is central.  The sole positive term is the central base term, so its
noncentrality is 0 (never strictly positive as the claim supposes), and the
returned value is the `(prob, method)` tuple of the noncentral-F primitive,
not the bare noncentral-F CDF value the claim asserts. -/
theorem claimC5_counterexample :
    initializeModel TestTag.HLT mI1 4 mI1 mZ1 mI1 mI1 1 false [1] m2c [1]
      mI1 = .ok e1c ∧
    isCholOfB m2c e1c.T1 = true ∧
    (accumTerms e1c 2).numPos = 1 ∧ (accumTerms e1c 2).numNeg = 1 ∧
    (accumTerms e1c 2).lastNeg = 0 ∧ (accumTerms e1c 2).lastPos = 0 ∧
    cdf e1c pf0 dv0 2 = .pair (mkRat 1 3) 0 ∧
    isNum (cdf e1c pf0 dv0 2) = false := by decide

/-- C5 (amended): whenever `cdf(w)` is evaluated inside the support with
exactly one positive-weight and one negative-weight term and the negative
term is central, the positive term is necessarily the central base term
(noncentrality 0), and the code returns the `(probability, method)` pair of
the noncentral-F primitive evaluated at
`Fstar = w / (Nstar * (H1 - w))` with `Nstar = N - qF + a - 1`, degrees of
freedom `(Nstar, 1)` and the positive term noncentrality 0 — the pair
itself, not the bare CDF value. -/
theorem claimC5_theorem (e : Engine) (pf : ℚ → ℚ → ℚ → ℚ → ℚ × ℕ)
    (dv : List ChiSquareTerm → ℚ → ℚ) (w : ℚ)
    (hH1 : 0 < e.H1) (hw0 : e.H0 < w) (hw1 : w < e.H1)
    (hp : (accumTerms e w).numPos = 1)
    (hn : (accumTerms e w).numNeg = 1)
    (hln : (accumTerms e w).lastNeg = 0) :
    (accumTerms e w).lastPos = 0 ∧
    cdf e pf dv w = .pair
      (pf (w / ((e.N - (e.qF : ℚ) + e.a - 1) * (e.H1 - w)))
        (e.N - (e.qF : ℚ) + e.a - 1) 1 0).1
      (pf (w / ((e.N - (e.qF : ℚ) + e.a - 1) * (e.H1 - w)))
        (e.N - (e.qF : ℚ) + e.a - 1) 1 0).2 := by
  have hinv := accumTerms_posInv e w hH1 hw1
  have hlp : (accumTerms e w).lastPos = 0 := hinv.2 hp
  refine ⟨hlp, ?_⟩
  unfold cdf
  rw [if_neg (by rw [not_or]; exact ⟨not_le.mpr hH1, not_le.mpr hw0⟩)]
  rw [if_neg (by rw [qsub_eq]; push_neg; linarith)]
  unfold cdfCore
  simp only [hn, hp, hlp, hln]
  norm_num [qsub_eq, qadd_eq, qdiv_eq, qmul_eq, qofNat_eq]

/-- Witness for the amended C5 on the concrete one-response engine at
w = 2. -/
theorem claimC5_witness :
    (accumTerms e1c 2).lastPos = 0 ∧
    cdf e1c pf0 dv0 2 = .pair
      (pf0 (2 / ((e1c.N - (e1c.qF : ℚ) + e1c.a - 1) * (e1c.H1 - 2)))
        (e1c.N - (e1c.qF : ℚ) + e1c.a - 1) 1 0).1
      (pf0 (2 / ((e1c.N - (e1c.qF : ℚ) + e1c.a - 1) * (e1c.H1 - 2)))
        (e1c.N - (e1c.qF : ℚ) + e1c.a - 1) 1 0).2 :=
  claimC5_theorem e1c pf0 dv0 2 (by decide) (by decide) (by decide)
    (by decide) (by decide) (by decide)
theorem bisectLoop_mem (f : ℚ → Option ℚ) (fa xt rt a b : ℚ) :
    ∀ (fuel : ℕ) (xpre dm : ℚ), a ≤ xpre → 0 ≤ dm → xpre + dm ≤ b →
    ∀ w, bisectLoop f fa xt rt fuel xpre dm = .ok w → a ≤ w ∧ w ≤ b := by
  intro fuel
  induction fuel with
  | zero =>
    intro xpre dm _ _ _ w h
    exact Except.noConfusion h
  | succ fuel ih =>
    intro xpre dm ha hdm hb w h
    unfold bisectLoop at h
    split at h
    · exact Except.noConfusion h
    · rename_i fm hfm
      have hdm2 : (0 : ℚ) ≤ qdiv dm 2 := by rw [qdiv_eq]; linarith
      have hxm1 : a ≤ qadd xpre (qdiv dm 2) := by
        rw [qadd_eq, qdiv_eq]; linarith
      have hxm2 : qadd xpre (qdiv dm 2) + qdiv dm 2 ≤ b := by
        rw [qadd_eq, qdiv_eq]; linarith
      split_ifs at h with hret hsgn
      · injection h with h2
        subst h2
        refine ⟨hxm1, ?_⟩
        rw [qadd_eq, qdiv_eq]
        rw [qdiv_eq] at hdm2
        linarith
      · exact ih (qadd xpre (qdiv dm 2)) (qdiv dm 2) hxm1 hdm2 hxm2 w h
      · exact ih xpre (qdiv dm 2) ha hdm2 (by rw [qdiv_eq]; linarith) w h

theorem bisect_mem (f : ℚ → Option ℚ) (xa xb xt rt : ℚ) (maxiter : ℕ)
    (hab : xa ≤ xb) (w : ℚ) (h : bisect f xa xb xt rt maxiter = .ok w) :
    xa ≤ w ∧ w ≤ xb := by
  unfold bisect at h
  split at h
  · exact Except.noConfusion h
  · split at h
    · exact Except.noConfusion h
    · split_ifs at h with h1 h2 h3
      · injection h with h4
        subst h4
        exact ⟨le_rfl, hab⟩
      · injection h with h4
        subst h4
        exact ⟨hab, le_rfl⟩
      · exact bisectLoop_mem f _ xt rt xa xb maxiter xa (qsub xb xa) le_rfl
          (by rw [qsub_eq]; linarith) (by rw [qsub_eq]; linarith) w h

/-- C6 (amended): `inverseCDF(q)` returns 0 outright when `H1 <= 0`;
otherwise it runs scipy bisection of `q - cdf` over `[H0, H1]` with scipy
default tolerances — the engine ACCURACY and MAX_ITERATIONS constants are
never passed — and any successfully returned w lies in `[H0, H1]`.  No
bound of the claimed form `|cdf(w) - q| <= tolerance` is established, and
when an evaluated `cdf` value is non-numeric the call raises instead of
returning. -/
theorem claimC6_theorem (e : Engine) (pf : ℚ → ℚ → ℚ → ℚ → ℚ × ℕ)
    (dv : List ChiSquareTerm → ℚ → ℚ) (q : ℚ) (hab : e.H0 ≤ e.H1) :
    (e.H1 ≤ 0 → inverseCDF e pf dv q = .ok 0) ∧
    (0 < e.H1 → ∀ w, inverseCDF e pf dv q = .ok w →
      e.H0 ≤ w ∧ w ≤ e.H1) := by
  constructor
  · intro h
    unfold inverseCDF
    rw [if_pos h]
  · intro hpos w h
    unfold inverseCDF at h
    rw [if_neg (not_le.mpr hpos)] at h
    rcases hbis : bisect (quantFunc e pf dv q) e.H0 e.H1 xtolDefault
        rtolDefault 100 with msg | w2
    · rw [hbis] at h
      exact Except.noConfusion h
    · rw [hbis] at h
      injection h with h2
      subst h2
      exact bisect_mem (quantFunc e pf dv q) e.H0 e.H1 xtolDefault
        rtolDefault 100 hab w2 hbis

/-- C6 counterexample: on the concrete two-response engine with
`H1 = 20 > 0` and quantile 1/2, the first bisection midpoint lands in the
Satterthwaite branch, `cdf` returns the frozen distribution object, the
subtraction in the quantile lambda raises `TypeError`, and `inverseCDF`
raises instead of returning a w with `cdf(w)` near the quantile. -/
theorem claimC6_counterexample :
    initializeModel TestTag.HLT mFE8 1 mI2 mCG2 mTheta2 mI2 1 false [1, 1]
      mFT1e0 [mkRat 4 5, mkRat 1 5] mI2 = .ok e0 ∧
    0 < e0.H1 ∧ ((0 : ℚ) < mkRat 1 2) ∧ (mkRat 1 2 < (1 : ℚ)) ∧
    inverseCDF e0 pf0 dv0 (mkRat 1 2) = .error
      "Failed to determine non-centrality quantile: TypeError: unsupported operand types for subtraction" := by
  decide

/-- Witness for the amended C6 on the one-response engine: at quantile 0
the bisection returns the left endpoint, and the theorem bounds it by
`[H0, H1]`. -/
theorem claimC6_witness :
    e1c.H0 ≤ e1c.H1 ∧ inverseCDF e1c pf0 dv0 0 = .ok 0 ∧
    (e1c.H0 ≤ 0 ∧ (0 : ℚ) ≤ e1c.H1) := by
  refine ⟨by decide, by decide, ?_⟩
  exact (claimC6_theorem e1c pf0 dv0 0 (by decide)).2 (by decide) 0 (by decide)

end PyGlimmpse
